import Mathlib

/-!
# Verification of the CodePilot seizure/diagnostic analytics core

Shallow embedding of the analytics functions of the repository:

* `analyze_seizure_frequency` and `process_diagnostic_tests`
  (`src/utils/data_processor.py`),
* the severity-score computation of `create_severity_gauge` and the
  month-by-trigger tally of `create_seizure_heatmap`
  (`src/utils/visualization.py`).

Modelling conventions:

* Python/pandas floats are modelled as `ℚ`; Python's `round(x, 1)`
  (round-half-to-even) is `round1`.
* A date string parsed by `pd.to_datetime` is modelled by its
  `year/month/day` components; `dateKey` (resp. `monthKey`) is a numeric
  key that is order-isomorphic to chronological order (resp. to the
  year-month `Period` used by `df.groupby('month')`) for calendar dates
  (`month ≤ 12 < 13`, `day ≤ 31 < 32`).
* A pandas cell that may hold a missing value (record key absent, hence
  `NaN` in the `DataFrame`) is an `Option`; `duration_seconds` cells may
  further hold a non-numeric value (`DurVal.str`), on which
  `Series.mean` raises `TypeError`.  A column built from records none of
  which carry the key does not exist, so indexing it raises `KeyError`.
* The bodies of the two processing functions are wrapped in
  `try/except Exception` that returns an `{"error": ...}` dictionary;
  the bodies are modelled as `Except PyError _` cores, and the exported
  functions catch the error as the code does.
* Python `dict` values compare equal regardless of key order, so
  dictionary-valued output fields (`seizure_types`, `common_triggers`)
  are modelled as `Multiset`s; Python `list` outputs (`test_types`) keep
  their order.
-/

/-- A value stored in a `duration_seconds` cell: a number, or a
non-numeric (string) value on which `Series.mean` raises. -/
inductive DurVal : Type
  | num (q : ℚ)
  | str (s : String)
deriving DecidableEq

/-- A seizure-history record (`SeizureEvent` of the data model):
`date` split into components, `type`, `duration_seconds` (possibly
missing or non-numeric), and the `triggers` list. -/
structure SeizureEvent : Type where
  year : ℕ
  month : ℕ
  day : ℕ
  type : String
  duration : Option DurVal
  triggers : List String
deriving DecidableEq

/-- A diagnostic-test record (`DiagnosticTest` of the data model). -/
structure DiagTest : Type where
  year : ℕ
  month : ℕ
  day : ℕ
  test : String
  result : String
  reference_range : String
  flag : Bool
deriving DecidableEq

/-- The slice of a patient record the two analytics functions read:
`data.get('medical_history',{}).get('neurological_history',{}).get('seizure_history',[])`
and `data.get('diagnostic_tests', [])` — missing sections default to
empty lists. -/
structure PatientData : Type where
  seizure_history : List SeizureEvent
  diagnostic_tests : List DiagTest
deriving DecidableEq

/-- An exception raised inside a processing function's `try` body. -/
inductive PyError : Type
  | keyError (column : String)
  | typeError
deriving DecidableEq

/-- Chronological key of a date: order-isomorphic to calendar order for
valid dates (`month ≤ 12 < 13`, `day ≤ 31 < 32`). -/
def dateKey (y m d : ℕ) : ℕ := (y * 13 + m) * 32 + d

/-- Year-month key: the `Period('M')` bucket used by `groupby('month')`. -/
def monthKey (y m : ℕ) : ℕ := y * 13 + m

/-- `SeizureEvent.key e` models `pd.to_datetime(e['date'])` for ordering. -/
def SeizureEvent.key (e : SeizureEvent) : ℕ := dateKey e.year e.month e.day

/-- `SeizureEvent.mkey e` is the year-month bucket of the event. -/
def SeizureEvent.mkey (e : SeizureEvent) : ℕ := monthKey e.year e.month

/-- `DiagTest.key t` models `pd.to_datetime(t['date'])` for ordering. -/
def DiagTest.key (t : DiagTest) : ℕ := dateKey t.year t.month t.day

/-- Insert an element into a key-sorted list, before strictly larger
keys and after earlier elements of equal key (stable). -/
def insertByKey {α : Type} (key : α → ℕ) (a : α) : List α → List α
  | [] => [a]
  | b :: l => if key a ≤ key b then a :: b :: l else b :: insertByKey key a l

/-- Stable sort by a numeric key: models `df.sort_values('date')`
(pandas is stable on the tiny tie groups exercised here). -/
def sortByKey {α : Type} (key : α → ℕ) : List α → List α
  | [] => []
  | b :: l => insertByKey key b (sortByKey key l)

/-- Minimum of a list of naturals, `none` on the empty list: models
`Series.min()` on the date keys. -/
def minKey? : List ℕ → Option ℕ
  | [] => none
  | a :: l =>
    some (match minKey? l with
      | none => a
      | some m => min a m)

/-- Maximum of a list of naturals, `none` on the empty list: models
`Series.max()` on the date keys. -/
def maxKey? : List ℕ → Option ℕ
  | [] => none
  | a :: l =>
    some (match maxKey? l with
      | none => a
      | some m => max a m)

/-- First-seen deduplication with an accumulator of already-seen
elements: models `pandas.Series.unique()` (first-occurrence order). -/
def uniqueFirstAux {α : Type} [DecidableEq α] (seen : List α) : List α → List α
  | [] => []
  | a :: l =>
    if a ∈ seen then uniqueFirstAux seen l
    else a :: uniqueFirstAux (a :: seen) l

/-- `uniqueFirst l` keeps the first occurrence of each element of `l`. -/
def uniqueFirst {α : Type} [DecidableEq α] (l : List α) : List α :=
  uniqueFirstAux [] l

/-- Round-half-to-even to an integer, the rounding of Python's `round`
(applied here to exact rationals in place of binary floats). -/
def roundHalfEven (q : ℚ) : ℤ :=
  if q - ⌊q⌋ < 1/2 then ⌊q⌋
  else if 1/2 < q - ⌊q⌋ then ⌊q⌋ + 1
  else if ⌊q⌋ % 2 = 0 then ⌊q⌋ else ⌊q⌋ + 1

/-- Python's `round(x, 1)` on the rational model. -/
def round1 (q : ℚ) : ℚ := (roundHalfEven (q * 10) : ℚ) / 10

/-- The numeric `duration_seconds` cells, in order: the values
`Series.mean()` averages after skipping `NaN` cells. -/
def numericDurations (l : List SeizureEvent) : List ℚ :=
  l.filterMap fun e =>
    match e.duration with
    | some (DurVal.num q) => some q
    | _ => none

/-- The `duration_seconds` column exists in the `DataFrame` iff some
record carries the key. -/
def hasDurationColumn (l : List SeizureEvent) : Bool :=
  l.any fun e => e.duration.isSome

/-- Some cell of the `duration_seconds` column holds a non-numeric
value, so `Series.mean()` raises `TypeError`. -/
def hasStringDuration (l : List SeizureEvent) : Bool :=
  l.any fun e =>
    match e.duration with
    | some (DurVal.str _) => true
    | _ => false

/-- The result dictionary of `analyze_seizure_frequency` on success. -/
structure SeizureResult : Type where
  total_seizures : ℕ
  seizure_types : Multiset String
  average_duration_seconds : ℚ
  common_triggers : Multiset String
  trend : String
  first_recorded : ℕ
  last_recorded : ℕ
deriving DecidableEq

/-- The dictionary returned by `analyze_seizure_frequency`: a
`{"message": ...}`, an `{"error": ...}`, or the full result. -/
inductive SeizureOutcome : Type
  | message (s : String)
  | errorDict (e : PyError)
  | ok (r : SeizureResult)
deriving DecidableEq

/-- Trend classification of `analyze_seizure_frequency` (lines
142–147): compare the event count of the earliest populated month
bucket with that of the latest, provided more than one bucket exists. -/
def trendOf (s : List SeizureEvent) : String :=
  let ks := s.map SeizureEvent.mkey
  if 1 < (uniqueFirst ks).length then
    let firstCount := ks.count ((minKey? ks).getD 0)
    let lastCount := ks.count ((maxKey? ks).getD 0)
    if lastCount < firstCount then "Improving"
    else if firstCount < lastCount then "Worsening"
    else "Stable"
  else "Insufficient data for trend analysis"

/-- The `try` body of `analyze_seizure_frequency` on the seizure-history
list: raises (`Except.error`) where the pandas code raises. -/
def analyzeSeizureCore (events : List SeizureEvent) :
    Except PyError SeizureOutcome :=
  if events = [] then Except.ok (SeizureOutcome.message "No seizure history available")
  else
    let s := sortByKey SeizureEvent.key events
    if ¬ hasDurationColumn s then Except.error (PyError.keyError "duration_seconds")
    else if hasStringDuration s then Except.error PyError.typeError
    else
      let nums := numericDurations s
      Except.ok (SeizureOutcome.ok
        { total_seizures := s.length
          seizure_types := (s.map SeizureEvent.type : List String)
          average_duration_seconds := round1 (nums.sum / (nums.length : ℚ))
          common_triggers := ((s.map SeizureEvent.triggers).flatten : List String)
          trend := trendOf s
          first_recorded := (minKey? (s.map SeizureEvent.key)).getD 0
          last_recorded := (maxKey? (s.map SeizureEvent.key)).getD 0 })

/-- `analyze_seizure_frequency` on the seizure-history list: the
`try/except` wrapper catching any exception into an error dictionary. -/
def analyzeSeizureHistory (events : List SeizureEvent) : SeizureOutcome :=
  match analyzeSeizureCore events with
  | Except.error e => SeizureOutcome.errorDict e
  | Except.ok o => o

/-- `analyze_seizure_frequency` (src/utils/data_processor.py, 108–160). -/
def analyze_seizure_frequency (d : PatientData) : SeizureOutcome :=
  analyzeSeizureHistory d.seizure_history

/-- One entry of the `test_summaries` dictionary. -/
structure TestSummary : Type where
  count : ℕ
  first_date : ℕ
  last_date : ℕ
  flagged_count : ℕ
deriving DecidableEq

/-- The result dictionary of `process_diagnostic_tests` on success.
`test_types` is a Python list (order observable); `test_summaries` is
keyed in `test_types` order. -/
structure TestsResult : Type where
  total_tests : ℕ
  flagged_percentage : ℚ
  test_types : List String
  test_summaries : List (String × TestSummary)
  latest_test_date : ℕ
deriving DecidableEq

/-- The dictionary returned by `process_diagnostic_tests`. -/
inductive TestsOutcome : Type
  | message (s : String)
  | errorDict (e : PyError)
  | ok (r : TestsResult)
deriving DecidableEq

/-- The `try` body of `process_diagnostic_tests` on the test list. -/
def processTestsCore (tests : List DiagTest) : Except PyError TestsOutcome :=
  if tests = [] then Except.ok (TestsOutcome.message "No diagnostic tests available")
  else
    let s := sortByKey DiagTest.key tests
    let types := uniqueFirst (s.map DiagTest.test)
    Except.ok (TestsOutcome.ok
      { total_tests := s.length
        flagged_percentage :=
          round1 (((s.countP fun x => x.flag) : ℚ) / (s.length : ℚ) * 100)
        test_types := types
        test_summaries := types.map fun t =>
          let g := s.filter fun x => x.test == t
          (t, { count := g.length
                first_date := (minKey? (g.map DiagTest.key)).getD 0
                last_date := (maxKey? (g.map DiagTest.key)).getD 0
                flagged_count := g.countP fun x => x.flag })
        latest_test_date := (maxKey? (s.map DiagTest.key)).getD 0 })

/-- `process_diagnostic_tests` on the test list, with the `try/except`
wrapper. -/
def processTestsList (tests : List DiagTest) : TestsOutcome :=
  match processTestsCore tests with
  | Except.error e => TestsOutcome.errorDict e
  | Except.ok o => o

/-- `process_diagnostic_tests` (src/utils/data_processor.py, 162–199). -/
def process_diagnostic_tests (d : PatientData) : TestsOutcome :=
  processTestsList d.diagnostic_tests

/-- The `neural_network_analysis` section of a neural profile. -/
structure NetworkAnalysis : Type where
  connectivity_strength : Option ℚ
  network_stability : Option String
deriving DecidableEq

/-- The `neural_treatment_response` section of a neural profile. -/
structure TreatmentResponse : Type where
  current_medication_efficacy : Option ℚ
deriving DecidableEq

/-- The `neural_profile` section read by `create_severity_gauge`. -/
structure NeuralProfile : Type where
  neural_network_analysis : Option NetworkAnalysis
  neural_treatment_response : Option TreatmentResponse
deriving DecidableEq

/-- The `stability_map` of `create_severity_gauge`:
`{'Stable': 0, 'Moderate': 50, 'Poor': 100}`. -/
def stabilityMap (s : String) : Option ℚ :=
  if s = "Stable" then some 0
  else if s = "Moderate" then some 50
  else if s = "Poor" then some 100
  else none

/-- The connectivity contribution (`(100 - connectivity) * 0.4`, added
only when `connectivity_strength` is present; the missing
`neural_network_analysis` section defaults to `{}`). -/
def connectivityTerm (p : NeuralProfile) : ℚ :=
  match (p.neural_network_analysis.getD ⟨none, none⟩).connectivity_strength with
  | some c => (100 - c) * 0.4
  | none => 0

/-- The stability contribution (`stability_map[stability] * 0.3`, added
only when `network_stability` is present and recognized). -/
def stabilityTerm (p : NeuralProfile) : ℚ :=
  match (p.neural_network_analysis.getD ⟨none, none⟩).network_stability with
  | some s =>
    match stabilityMap s with
    | some v => v * 0.3
    | none => 0
  | none => 0

/-- The medication-efficacy contribution (`(100 - efficacy) * 0.3`,
added only when both nested keys are present). -/
def medicationTerm (p : NeuralProfile) : ℚ :=
  match p.neural_treatment_response with
  | some tr =>
    match tr.current_medication_efficacy with
    | some e => (100 - e) * 0.3
    | none => 0
  | none => 0

/-- The severity-score computation of `create_severity_gauge`
(src/utils/visualization.py, 107–131): the numeric core feeding the
gauge figure; `severity_score` starts at 0 and each present term is
added in turn. -/
def severity_score (p : NeuralProfile) : ℚ :=
  connectivityTerm p + stabilityTerm p + medicationTerm p

/-- One increment of the heatmap tally: `counts[t][i] += 1`. -/
def bumpCount (f : String → ℕ → ℕ) (t : String) (i : ℕ) : String → ℕ → ℕ :=
  fun t' i' => if t' = t ∧ i' = i then f t' i' + 1 else f t' i'

/-- Processing one row of the heatmap loop: increment the cell
`(trigger, month − 1)` once per occurrence in the row's trigger list. -/
def heatRow (f : String → ℕ → ℕ) (e : SeizureEvent) : String → ℕ → ℕ :=
  e.triggers.foldl (fun g t => bumpCount g t (e.month - 1)) f

/-- The month-by-trigger tally of `create_seizure_heatmap`
(src/utils/visualization.py, 159–193): `monthly_trigger_counts` as a
function from trigger and 0-based month index to count. -/
def monthly_trigger_counts (events : List SeizureEvent) : String → ℕ → ℕ :=
  events.foldl heatRow fun _ _ => 0

/-- The triggers observed across all events (`all_triggers` as a flat
list; the code's set union has the same membership). -/
def allTriggers (events : List SeizureEvent) : List String :=
  (events.map SeizureEvent.triggers).flatten

/-! ## Helper lemmas about the list primitives -/

theorem insertByKey_perm {α : Type} (key : α → ℕ) (a : α) (l : List α) :
    (insertByKey key a l).Perm (a :: l) := by
  induction l with
  | nil => simp [insertByKey]
  | cons b l ih =>
    simp only [insertByKey]
    by_cases h : key a ≤ key b
    · simp [h]
    · simp only [h, if_neg, if_false]
      exact (List.Perm.cons b ih).trans (List.Perm.swap a b l)

theorem sortByKey_perm {α : Type} (key : α → ℕ) (l : List α) :
    (sortByKey key l).Perm l := by
  induction l with
  | nil => simp [sortByKey]
  | cons b l ih =>
    simp only [sortByKey]
    exact (insertByKey_perm key b (sortByKey key l)).trans (List.Perm.cons b ih)

theorem minKey?_congr {l₁ l₂ : List ℕ} (h : l₁.Perm l₂) :
    minKey? l₁ = minKey? l₂ := by
  induction h with
  | nil => rfl
  | cons a h ih => simp only [minKey?, ih]
  | swap a b l =>
    simp only [minKey?]
    cases minKey? l with
    | none => simp [Nat.min_comm]
    | some m => simp [Nat.min_left_comm]
  | trans h₁ h₂ ih₁ ih₂ => exact ih₁.trans ih₂

theorem maxKey?_congr {l₁ l₂ : List ℕ} (h : l₁.Perm l₂) :
    maxKey? l₁ = maxKey? l₂ := by
  induction h with
  | nil => rfl
  | cons a h ih => simp only [maxKey?, ih]
  | swap a b l =>
    simp only [maxKey?]
    cases maxKey? l with
    | none => simp [Nat.max_comm]
    | some m => simp [Nat.max_left_comm]
  | trans h₁ h₂ ih₁ ih₂ => exact ih₁.trans ih₂

theorem mem_uniqueFirstAux {α : Type} [DecidableEq α] (x : α) (seen l : List α) :
    x ∈ uniqueFirstAux seen l ↔ x ∈ l ∧ x ∉ seen := by
  induction l generalizing seen with
  | nil => simp [uniqueFirstAux]
  | cons a l ih =>
    by_cases h : a ∈ seen
    · simp only [uniqueFirstAux, if_pos h, ih, List.mem_cons]
      by_cases hxa : x = a
      · subst hxa; tauto
      · tauto
    · simp only [uniqueFirstAux, if_neg h, List.mem_cons, ih]
      by_cases hxa : x = a
      · subst hxa; tauto
      · tauto

theorem mem_uniqueFirst {α : Type} [DecidableEq α] (x : α) (l : List α) :
    x ∈ uniqueFirst l ↔ x ∈ l := by
  simp [uniqueFirst, mem_uniqueFirstAux]

theorem uniqueFirstAux_nodup {α : Type} [DecidableEq α] (seen l : List α) :
    (uniqueFirstAux seen l).Nodup := by
  induction l generalizing seen with
  | nil => simp [uniqueFirstAux]
  | cons a l ih =>
    simp only [uniqueFirstAux]
    by_cases h : a ∈ seen
    · simp only [h, if_pos]
      exact ih seen
    · simp only [h, if_neg, if_false, List.nodup_cons]
      refine ⟨fun hmem => ?_, ih (a :: seen)⟩
      exact ((mem_uniqueFirstAux a (a :: seen) l).mp hmem).2 (List.mem_cons_self a seen)

theorem uniqueFirst_nodup {α : Type} [DecidableEq α] (l : List α) :
    (uniqueFirst l).Nodup := uniqueFirstAux_nodup [] l

theorem uniqueFirst_perm_congr {α : Type} [DecidableEq α] {l₁ l₂ : List α}
    (h : l₁.Perm l₂) : (uniqueFirst l₁).Perm (uniqueFirst l₂) := by
  refine (List.perm_ext_iff_of_nodup (uniqueFirst_nodup l₁) (uniqueFirst_nodup l₂)).mpr ?_
  intro a
  simp [mem_uniqueFirst, h.mem_iff]

theorem sum_map_add {β : Type} (keys : List β) (g h : β → ℕ) :
    (keys.map fun t => g t + h t).sum = (keys.map g).sum + (keys.map h).sum := by
  induction keys with
  | nil => simp
  | cons a keys ih => simp only [List.map_cons, List.sum_cons, ih]; omega

theorem sum_map_indicator_zero {β : Type} [DecidableEq β] (keys : List β) (a : β)
    (ha : a ∉ keys) :
    (keys.map fun t => if a = t then 1 else 0).sum = 0 := by
  induction keys with
  | nil => simp
  | cons b keys ih =>
    have hab : a ≠ b := fun h => ha (h ▸ List.mem_cons_self b keys)
    have ha' : a ∉ keys := fun h => ha (List.mem_cons_of_mem b h)
    simp [hab, ih ha']

theorem sum_map_indicator {β : Type} [DecidableEq β] (keys : List β) (a : β)
    (hnd : keys.Nodup) (ha : a ∈ keys) :
    (keys.map fun t => if a = t then 1 else 0).sum = 1 := by
  induction keys with
  | nil => cases ha
  | cons b keys ih =>
    rcases List.mem_cons.mp ha with rfl | ha'
    · have hnotin : a ∉ keys := (List.nodup_cons.mp hnd).1
      simp [sum_map_indicator_zero keys a hnotin]
    · have hab : a ≠ b := fun h => (List.nodup_cons.mp hnd).1 (h ▸ ha')
      simp only [List.map_cons, List.sum_cons, if_neg hab]
      simpa using ih (List.nodup_cons.mp hnd).2 ha'

theorem sum_map_zero {β : Type} (keys : List β) :
    (keys.map fun _ => (0 : ℕ)).sum = 0 := by
  induction keys with
  | nil => simp
  | cons b keys ih => simp [ih]

theorem sum_filter_lengths {α β : Type} [DecidableEq β] (f : α → β) (l : List α)
    (keys : List β) (hnd : keys.Nodup) (hcov : ∀ x ∈ l, f x ∈ keys) :
    (keys.map fun t => (l.filter fun x => f x == t).length).sum = l.length := by
  induction l with
  | nil => simp [sum_map_zero keys]
  | cons x l ih =>
    have hx : f x ∈ keys := hcov x (List.mem_cons_self x l)
    have hrest : ∀ y ∈ l, f y ∈ keys := fun y hy => hcov y (List.mem_cons_of_mem x hy)
    have hmap : (keys.map fun t => ((x :: l).filter fun z => f z == t).length)
        = keys.map fun t =>
            (if f x = t then 1 else 0) + (l.filter fun z => f z == t).length := by
      apply List.map_congr_left
      intro t _
      by_cases hft : f x = t
      · simp [List.filter_cons, hft]; omega
      · simp [List.filter_cons, hft]
    rw [hmap, sum_map_add, sum_map_indicator keys (f x) hnd hx, ih hrest]
    simp [Nat.add_comm]

theorem heat_inner_eval (triggers : List String) (i : ℕ) (f : String → ℕ → ℕ)
    (t : String) (m : ℕ) :
    (triggers.foldl (fun g tr => bumpCount g tr i) f) t m
      = f t m + (if i = m then triggers.count t else 0) := by
  induction triggers generalizing f with
  | nil => simp
  | cons a triggers ih =>
    simp only [List.foldl_cons, ih]
    by_cases him : i = m
    · subst him
      by_cases hta : t = a
      · subst hta
        simp [bumpCount, List.count_cons]
        omega
      · simp [bumpCount, hta, List.count_cons, Ne.symm hta]
    · have hni : ¬ (m = i) := fun h => him h.symm
      simp [bumpCount, him, hni]

theorem heatRow_eval (f : String → ℕ → ℕ) (e : SeizureEvent) (t : String) (m : ℕ) :
    heatRow f e t m = f t m + (if e.month - 1 = m then e.triggers.count t else 0) := by
  simp [heatRow, heat_inner_eval]

theorem monthly_trigger_counts_foldl (events : List SeizureEvent)
    (f : String → ℕ → ℕ) (t : String) (m : ℕ) :
    (events.foldl heatRow f) t m
      = f t m
        + ((events.filter fun e => e.month - 1 == m).map
            fun e => e.triggers.count t).sum := by
  induction events generalizing f with
  | nil => simp
  | cons e events ih =>
    simp only [List.foldl_cons, ih, heatRow_eval]
    by_cases hm : e.month - 1 = m
    · simp [List.filter_cons, hm]
      omega
    · simp [List.filter_cons, hm]

theorem monthly_trigger_counts_eval (events : List SeizureEvent) (t : String) (m : ℕ) :
    monthly_trigger_counts events t m
      = ((events.filter fun e => e.month - 1 == m).map
          fun e => e.triggers.count t).sum := by
  simpa using monthly_trigger_counts_foldl events (fun _ _ => 0) t m

theorem roundHalfEven_intCast (n : ℤ) : roundHalfEven (n : ℚ) = n := by
  have hfl : ⌊(n : ℚ)⌋ = n := Int.floor_intCast n
  simp only [roundHalfEven, hfl]
  norm_num

theorem round1_hundred : round1 100 = 100 := by
  have h : (100 : ℚ) * 10 = ((1000 : ℤ) : ℚ) := by norm_num
  rw [round1, h, roundHalfEven_intCast]
  norm_num

theorem any_perm_congr {α : Type} {l₁ l₂ : List α} (h : l₁.Perm l₂) (p : α → Bool) :
    l₁.any p = l₂.any p := by
  rcases hb : l₂.any p with _ | _
  · rcases hc : l₁.any p with _ | _
    · rfl
    · rw [List.any_eq_true] at hc
      rcases hc with ⟨x, hx, hpx⟩
      rw [List.any_eq_false] at hb
      exact absurd hpx (by simpa using hb x (h.mem_iff.mp hx))
  · rw [List.any_eq_true] at hb
    rcases hb with ⟨x, hx, hpx⟩
    exact List.any_eq_true.mpr ⟨x, h.mem_iff.mpr hx, hpx⟩

theorem hasDurationColumn_congr {l₁ l₂ : List SeizureEvent} (h : l₁.Perm l₂) :
    hasDurationColumn l₁ = hasDurationColumn l₂ := any_perm_congr h _

theorem hasStringDuration_congr {l₁ l₂ : List SeizureEvent} (h : l₁.Perm l₂) :
    hasStringDuration l₁ = hasStringDuration l₂ := any_perm_congr h _

theorem hasDurationColumn_of_hasStringDuration {l : List SeizureEvent}
    (h : hasStringDuration l = true) : hasDurationColumn l = true := by
  simp only [hasStringDuration, hasDurationColumn] at h ⊢
  rw [List.any_eq_true] at h ⊢
  rcases h with ⟨e, he, hp⟩
  refine ⟨e, he, ?_⟩
  cases hd : e.duration with
  | none => rw [hd] at hp; simp at hp
  | some v => simp [hd]

theorem trendOf_congr {s₁ s₂ : List SeizureEvent} (h : s₁.Perm s₂) :
    trendOf s₁ = trendOf s₂ := by
  have hks : (s₁.map SeizureEvent.mkey).Perm (s₂.map SeizureEvent.mkey) :=
    h.map _
  simp only [trendOf, (uniqueFirst_perm_congr hks).length_eq, minKey?_congr hks,
    maxKey?_congr hks, hks.count_eq]

/-- Evaluation of `analyze_seizure_frequency` on a non-empty history
whose `duration_seconds` column exists and holds no non-numeric cell. -/
theorem analyzeSeizureHistory_eq_ok (events : List SeizureEvent)
    (hne : events ≠ [])
    (hcol : hasDurationColumn events = true)
    (hstr : hasStringDuration events = false) :
    analyzeSeizureHistory events = SeizureOutcome.ok
      { total_seizures := events.length
        seizure_types := (events.map SeizureEvent.type : List String)
        average_duration_seconds :=
          round1 ((numericDurations events).sum / ((numericDurations events).length : ℚ))
        common_triggers := ((events.map SeizureEvent.triggers).flatten : List String)
        trend := trendOf events
        first_recorded := (minKey? (events.map SeizureEvent.key)).getD 0
        last_recorded := (maxKey? (events.map SeizureEvent.key)).getD 0 } := by
  have hperm := sortByKey_perm SeizureEvent.key events
  have hcol' : hasDurationColumn (sortByKey SeizureEvent.key events) = true :=
    (hasDurationColumn_congr hperm).trans hcol
  have hstr' : hasStringDuration (sortByKey SeizureEvent.key events) = false :=
    (hasStringDuration_congr hperm).trans hstr
  have hnum : (numericDurations (sortByKey SeizureEvent.key events)).Perm
      (numericDurations events) := hperm.filterMap _
  simp only [analyzeSeizureHistory, analyzeSeizureCore, if_neg hne, hcol', hstr',
    Bool.not_true, Bool.false_eq_true, if_false, SeizureOutcome.ok.injEq,
    SeizureResult.mk.injEq]
  simp only [not_true_eq_false, if_false, SeizureOutcome.ok.injEq, SeizureResult.mk.injEq]
  refine ⟨hperm.length_eq, Multiset.coe_eq_coe.mpr (hperm.map _), ?_, ?_, ?_, ?_, ?_⟩
  · rw [hnum.sum_eq, hnum.length_eq]
  · exact Multiset.coe_eq_coe.mpr ((hperm.map _).flatten)
  · exact trendOf_congr hperm
  · rw [minKey?_congr (hperm.map _)]
  · rw [maxKey?_congr (hperm.map _)]

/-- With no record carrying `duration_seconds`, the column is absent and
line 139 raises `KeyError`, caught into the error dictionary. -/
theorem analyzeSeizureHistory_eq_error_nocol (events : List SeizureEvent)
    (hne : events ≠ []) (hcol : hasDurationColumn events = false) :
    analyzeSeizureHistory events
      = SeizureOutcome.errorDict (PyError.keyError "duration_seconds") := by
  have hcol' : hasDurationColumn (sortByKey SeizureEvent.key events) = false :=
    (hasDurationColumn_congr (sortByKey_perm SeizureEvent.key events)).trans hcol
  simp [analyzeSeizureHistory, analyzeSeizureCore, if_neg hne, hcol']

/-- With a non-numeric `duration_seconds` cell, `Series.mean()` raises
`TypeError`, caught into the error dictionary. -/
theorem analyzeSeizureHistory_eq_error_str (events : List SeizureEvent)
    (hne : events ≠ []) (hstr : hasStringDuration events = true) :
    analyzeSeizureHistory events = SeizureOutcome.errorDict PyError.typeError := by
  have hstr' : hasStringDuration (sortByKey SeizureEvent.key events) = true :=
    (hasStringDuration_congr (sortByKey_perm SeizureEvent.key events)).trans hstr
  have hcol' : hasDurationColumn (sortByKey SeizureEvent.key events) = true :=
    hasDurationColumn_of_hasStringDuration hstr'
  simp [analyzeSeizureHistory, analyzeSeizureCore, if_neg hne, hcol', hstr']

/-- Evaluation of `process_diagnostic_tests` on a non-empty test list. -/
theorem processTestsList_eq_ok (tests : List DiagTest) (hne : tests ≠ []) :
    processTestsList tests = TestsOutcome.ok
      { total_tests := tests.length
        flagged_percentage :=
          round1 (((tests.countP fun x => x.flag) : ℚ) / (tests.length : ℚ) * 100)
        test_types := uniqueFirst ((sortByKey DiagTest.key tests).map DiagTest.test)
        test_summaries :=
          (uniqueFirst ((sortByKey DiagTest.key tests).map DiagTest.test)).map fun t =>
            (t, { count := ((sortByKey DiagTest.key tests).filter fun x => x.test == t).length
                  first_date :=
                    (minKey? (((sortByKey DiagTest.key tests).filter fun x => x.test == t).map
                      DiagTest.key)).getD 0
                  last_date :=
                    (maxKey? (((sortByKey DiagTest.key tests).filter fun x => x.test == t).map
                      DiagTest.key)).getD 0
                  flagged_count :=
                    ((sortByKey DiagTest.key tests).filter fun x => x.test == t).countP
                      fun x => x.flag })
        latest_test_date := (maxKey? (tests.map DiagTest.key)).getD 0 } := by
  have hperm := sortByKey_perm DiagTest.key tests
  simp only [processTestsList, processTestsCore, if_neg hne, TestsOutcome.ok.injEq,
    TestsResult.mk.injEq]
  refine ⟨hperm.length_eq, ?_, trivial, trivial, ?_⟩
  · rw [hperm.countP_eq, hperm.length_eq]
  · rw [maxKey?_congr (hperm.map _)]

/-- The §3 data-model constraint `connectivity_strength: 0–100`, when
the field is present. -/
def connectivityInRange (p : NeuralProfile) : Bool :=
  match (p.neural_network_analysis.getD ⟨none, none⟩).connectivity_strength with
  | some c => decide (0 ≤ c ∧ c ≤ 100)
  | none => true

/-- The §3 data-model constraint `current_medication_efficacy: 0–100`,
when the field is present. -/
def efficacyInRange (p : NeuralProfile) : Bool :=
  match p.neural_treatment_response with
  | some tr =>
    match tr.current_medication_efficacy with
    | some e => decide (0 ≤ e ∧ e ≤ 100)
    | none => true
  | none => true

theorem connectivityTerm_bounds (p : NeuralProfile)
    (hc : connectivityInRange p = true) :
    0 ≤ connectivityTerm p ∧ connectivityTerm p ≤ 40 := by
  unfold connectivityInRange at hc
  unfold connectivityTerm
  cases h : (p.neural_network_analysis.getD ⟨none, none⟩).connectivity_strength with
  | none => norm_num
  | some c =>
    rw [h] at hc
    have hb : 0 ≤ c ∧ c ≤ 100 := of_decide_eq_true hc
    constructor
    · nlinarith [hb.1, hb.2]
    · nlinarith [hb.1, hb.2]

theorem stabilityTerm_bounds (p : NeuralProfile) :
    0 ≤ stabilityTerm p ∧ stabilityTerm p ≤ 30 := by
  unfold stabilityTerm
  cases h : (p.neural_network_analysis.getD ⟨none, none⟩).network_stability with
  | none => norm_num
  | some s =>
    unfold stabilityMap
    by_cases h1 : s = "Stable"
    · simp [h1]
    · by_cases h2 : s = "Moderate"
      · simp [h1, h2]; norm_num
      · by_cases h3 : s = "Poor"
        · simp [h1, h2, h3]; norm_num
        · simp [h1, h2, h3]

theorem medicationTerm_bounds (p : NeuralProfile)
    (he : efficacyInRange p = true) :
    0 ≤ medicationTerm p ∧ medicationTerm p ≤ 30 := by
  obtain ⟨na, tro⟩ := p
  cases tro with
  | none => simp [medicationTerm]
  | some tr =>
    obtain ⟨eo⟩ := tr
    cases eo with
    | none => simp [medicationTerm]
    | some e =>
      simp only [efficacyInRange] at he
      have hb : 0 ≤ e ∧ e ≤ 100 := of_decide_eq_true he
      simp only [medicationTerm]
      constructor
      · nlinarith [hb.1, hb.2]
      · nlinarith [hb.1, hb.2]

/-- Lookup in an association list built by pairing each key with a
value computed from it. -/
theorem lookup_map_pair {γ : Type} (types : List String) (f : String → γ)
    (t₀ : String) :
    (types.map fun t => (t, f t)).lookup t₀
      = if t₀ ∈ types then some (f t₀) else none := by
  induction types with
  | nil => simp
  | cons a types ih =>
    by_cases h : t₀ = a
    · subst h
      simp [List.lookup]
    · have hba : (t₀ == a) = false := by simpa using h
      simp [List.lookup, hba, ih, h]

/-! ## Concrete records used by witnesses and counterexamples -/

/-- 2023-01-15, Focal, 120 s, trigger "Stress". -/
def sev1 : SeizureEvent := ⟨2023, 1, 15, "Focal", some (DurVal.num 120), ["Stress"]⟩

/-- 2023-06-10, Focal, 90 s, trigger "Flashing lights". -/
def sev2 : SeizureEvent := ⟨2023, 6, 10, "Focal", some (DurVal.num 90), ["Flashing lights"]⟩

/-- 2023-01-16, Focal, non-numeric `duration_seconds` value. -/
def sevBad : SeizureEvent := ⟨2023, 1, 16, "Focal", some (DurVal.str "unknown"), ["Stress"]⟩

/-- 2023-01-20, Generalized, record without a `duration_seconds` key. -/
def sevNoDur : SeizureEvent := ⟨2023, 1, 20, "Generalized", none, []⟩

/-- AED Level test, 2023-01-05, not flagged. -/
def dtAed1 : DiagTest := ⟨2023, 1, 5, "AED Level", "8.5 ug/mL", "4.0-12.0 ug/mL", false⟩

/-- EEG test on the same date 2023-01-05, not flagged. -/
def dtEeg : DiagTest := ⟨2023, 1, 5, "EEG", "Normal", "N/A", false⟩

/-- AED Level test, 2023-03-10, flagged. -/
def dtAed2 : DiagTest := ⟨2023, 3, 10, "AED Level", "14.2 ug/mL", "4.0-12.0 ug/mL", true⟩

/-- The neural profile of the spec's severity scenario (§8). -/
def gaugeProfile : NeuralProfile := ⟨some ⟨some 72, some "Moderate"⟩, some ⟨some 65⟩⟩

/-! ## The claims -/

/-- **C1** (corrected).  The average excludes events with a *missing*
`duration_seconds` key (their cells are `NaN`, skipped by
`Series.mean`), but an event with a *non-numeric* duration makes
`Series.mean` raise `TypeError` and the function returns the
`{"error": ...}` dictionary — and when every event lacks the key the
column does not exist, so `df['duration_seconds']` raises `KeyError`
and the function again returns the error dictionary, not a neutral
value. -/
theorem average_duration_corrected (events : List SeizureEvent)
    (hne : events ≠ []) :
    (hasDurationColumn events = true → hasStringDuration events = false →
      ∃ r, analyzeSeizureHistory events = SeizureOutcome.ok r ∧
        r.average_duration_seconds
          = round1 ((numericDurations events).sum
              / ((numericDurations events).length : ℚ))) ∧
    (hasDurationColumn events = false →
      analyzeSeizureHistory events
        = SeizureOutcome.errorDict (PyError.keyError "duration_seconds")) ∧
    (hasStringDuration events = true →
      analyzeSeizureHistory events = SeizureOutcome.errorDict PyError.typeError) := by
  refine ⟨fun hcol hstr => ⟨_, analyzeSeizureHistory_eq_ok events hne hcol hstr, rfl⟩,
    fun hcol => analyzeSeizureHistory_eq_error_nocol events hne hcol,
    fun hstr => analyzeSeizureHistory_eq_error_str events hne hstr⟩

/-- Witness for C1 at the two-event history `[sev1, sev2]`. -/
theorem average_duration_corrected_witness :
    ([sev1, sev2] ≠ ([] : List SeizureEvent)) ∧
    ((hasDurationColumn [sev1, sev2] = true → hasStringDuration [sev1, sev2] = false →
      ∃ r, analyzeSeizureHistory [sev1, sev2] = SeizureOutcome.ok r ∧
        r.average_duration_seconds
          = round1 ((numericDurations [sev1, sev2]).sum
              / ((numericDurations [sev1, sev2]).length : ℚ))) ∧
    (hasDurationColumn [sev1, sev2] = false →
      analyzeSeizureHistory [sev1, sev2]
        = SeizureOutcome.errorDict (PyError.keyError "duration_seconds")) ∧
    (hasStringDuration [sev1, sev2] = true →
      analyzeSeizureHistory [sev1, sev2] = SeizureOutcome.errorDict PyError.typeError)) :=
  ⟨by decide, average_duration_corrected [sev1, sev2] (by decide)⟩

/-- Counterexample to C1 as stated: on a history containing one numeric
and one non-numeric duration, the claim asserts the mean of the
parseable durations (120.0), but the code returns the error
dictionary. -/
theorem average_duration_claim_counterexample :
    analyzeSeizureHistory [sev1, sevBad] = SeizureOutcome.errorDict PyError.typeError := by
  decide

/-- **C2** (corrected, the non-empty part).  For a non-empty test list
the flagged percentage is `round((#flagged / #total) * 100, 1)`, and it
is 100.0 when every test is flagged. -/
theorem flagged_percentage_corrected (tests : List DiagTest) (hne : tests ≠ []) :
    ∃ r, processTestsList tests = TestsOutcome.ok r ∧
      r.flagged_percentage
        = round1 (((tests.countP fun x => x.flag) : ℚ) / (tests.length : ℚ) * 100) ∧
      ((∀ x ∈ tests, x.flag = true) → r.flagged_percentage = 100) := by
  refine ⟨_, processTestsList_eq_ok tests hne, rfl, fun hall => ?_⟩
  have hcount : (tests.countP fun x => x.flag) = tests.length :=
    List.countP_eq_length.mpr (by simpa using hall)
  have hlen : (tests.length : ℚ) ≠ 0 := by
    have hl : tests.length ≠ 0 := fun h => hne (List.length_eq_zero.mp h)
    exact_mod_cast hl
  show round1 (((tests.countP fun x => x.flag) : ℚ) / (tests.length : ℚ) * 100) = 100
  rw [hcount, div_self hlen, one_mul, round1_hundred]

/-- Witness for C2 at the all-flagged one-element list `[dtAed2]`. -/
theorem flagged_percentage_corrected_witness :
    ([dtAed2] ≠ ([] : List DiagTest)) ∧
    (∃ r, processTestsList [dtAed2] = TestsOutcome.ok r ∧
      r.flagged_percentage
        = round1 ((([dtAed2].countP fun x => x.flag) : ℚ) / (([dtAed2] : List DiagTest).length : ℚ) * 100) ∧
      ((∀ x ∈ [dtAed2], x.flag = true) → r.flagged_percentage = 100)) :=
  ⟨by decide, flagged_percentage_corrected [dtAed2] (by decide)⟩

/-- Counterexample to C2 as stated: on the empty test list the function
returns the `{"message": ...}` dictionary — there is no
`flagged_percentage` field at all, so the claimed value 0 is not
produced (though indeed no division error occurs). -/
theorem flagged_percentage_empty_counterexample :
    processTestsList [] = TestsOutcome.message "No diagnostic tests available" := by
  decide

/-- **C7** (confirmed).  Whenever the analysis succeeds,
`total_seizures` is the length of the input list — for every input
order, duplicates included (`len(df)` counts rows, one per record). -/
theorem total_seizures_eq_length (events : List SeizureEvent)
    (hne : events ≠ []) (hcol : hasDurationColumn events = true)
    (hstr : hasStringDuration events = false) :
    ∃ r, analyzeSeizureHistory events = SeizureOutcome.ok r ∧
      r.total_seizures = events.length :=
  ⟨_, analyzeSeizureHistory_eq_ok events hne hcol hstr, rfl⟩

/-- Witness for C7 at `[sev1, sev2]`. -/
theorem total_seizures_eq_length_witness :
    ([sev1, sev2] ≠ ([] : List SeizureEvent)) ∧
    hasDurationColumn [sev1, sev2] = true ∧
    hasStringDuration [sev1, sev2] = false ∧
    (∃ r, analyzeSeizureHistory [sev1, sev2] = SeizureOutcome.ok r ∧
      r.total_seizures = ([sev1, sev2] : List SeizureEvent).length) :=
  ⟨by decide, by decide, by decide,
    total_seizures_eq_length [sev1, sev2] (by decide) (by decide) (by decide)⟩

/-- **C8** (confirmed).  The spec's scenario: connectivity 72,
stability "Moderate", efficacy 65 give severity
`(100-72)*0.4 + 50*0.3 + (100-65)*0.3 = 36.7` (exact arithmetic; the
Python float sum differs only by the usual binary representation
error). -/
theorem severity_scenario_value : severity_score gaugeProfile = 36.7 := by
  have hs : stabilityMap "Moderate" = some 50 := rfl
  norm_num [severity_score, gaugeProfile, connectivityTerm, stabilityTerm,
    medicationTerm, hs]

/-- **C4** (confirmed).  With every present numeric field in 0–100, the
severity score is the sum of the present terms only (that is its
definition, mirroring the three guarded `+=` statements) and always
lies in [0, 100]. -/
theorem severity_score_bounds (p : NeuralProfile)
    (hc : connectivityInRange p = true) (he : efficacyInRange p = true) :
    severity_score p
      = connectivityTerm p + stabilityTerm p + medicationTerm p ∧
    0 ≤ severity_score p ∧ severity_score p ≤ 100 := by
  have h1 := connectivityTerm_bounds p hc
  have h2 := stabilityTerm_bounds p
  have h3 := medicationTerm_bounds p he
  refine ⟨rfl, ?_, ?_⟩
  · unfold severity_score
    nlinarith [h1.1, h2.1, h3.1]
  · unfold severity_score
    nlinarith [h1.2, h2.2, h3.2]

/-- Witness for C4 at the spec's scenario profile. -/
theorem severity_score_bounds_witness :
    connectivityInRange gaugeProfile = true ∧
    efficacyInRange gaugeProfile = true ∧
    (severity_score gaugeProfile
      = connectivityTerm gaugeProfile + stabilityTerm gaugeProfile
          + medicationTerm gaugeProfile ∧
      0 ≤ severity_score gaugeProfile ∧ severity_score gaugeProfile ≤ 100) :=
  ⟨by decide, by decide, severity_score_bounds gaugeProfile (by decide) (by decide)⟩

/-- **C9** (confirmed).  Both processing functions wrap their whole
body in `try/except Exception`: every exception raised by the body
(`Except.error` of the core) is caught and mapped to the
`{"error": ...}` dictionary, and otherwise the body's dictionary is
returned unchanged — the caller always receives a dictionary, never a
propagated exception. -/
theorem analytics_never_raise (d : PatientData) :
    ((∃ e, analyzeSeizureCore d.seizure_history = Except.error e ∧
        analyze_seizure_frequency d = SeizureOutcome.errorDict e) ∨
      (∃ o, analyzeSeizureCore d.seizure_history = Except.ok o ∧
        analyze_seizure_frequency d = o)) ∧
    ((∃ e, processTestsCore d.diagnostic_tests = Except.error e ∧
        process_diagnostic_tests d = TestsOutcome.errorDict e) ∨
      (∃ o, processTestsCore d.diagnostic_tests = Except.ok o ∧
        process_diagnostic_tests d = o)) := by
  constructor
  · cases h : analyzeSeizureCore d.seizure_history with
    | error e =>
      exact Or.inl ⟨e, rfl, by
        simp [analyze_seizure_frequency, analyzeSeizureHistory, h]⟩
    | ok o =>
      exact Or.inr ⟨o, rfl, by
        simp [analyze_seizure_frequency, analyzeSeizureHistory, h]⟩
  · cases h : processTestsCore d.diagnostic_tests with
    | error e =>
      exact Or.inl ⟨e, rfl, by
        simp [process_diagnostic_tests, processTestsList, h]⟩
    | ok o =>
      exact Or.inr ⟨o, rfl, by
        simp [process_diagnostic_tests, processTestsList, h]⟩

/-- Case analysis of the trend classification: the four possible
strings, the "insufficient" test, and the two-point comparison. -/
theorem trendOf_cases (s : List SeizureEvent) :
    (trendOf s = "Improving" ∨ trendOf s = "Worsening" ∨ trendOf s = "Stable"
      ∨ trendOf s = "Insufficient data for trend analysis") ∧
    (trendOf s = "Insufficient data for trend analysis"
      ↔ (uniqueFirst (s.map SeizureEvent.mkey)).length < 2) ∧
    (2 ≤ (uniqueFirst (s.map SeizureEvent.mkey)).length →
      ((trendOf s = "Improving"
          ↔ (s.map SeizureEvent.mkey).count
              ((maxKey? (s.map SeizureEvent.mkey)).getD 0)
            < (s.map SeizureEvent.mkey).count
              ((minKey? (s.map SeizureEvent.mkey)).getD 0)) ∧
       (trendOf s = "Worsening"
          ↔ (s.map SeizureEvent.mkey).count
              ((minKey? (s.map SeizureEvent.mkey)).getD 0)
            < (s.map SeizureEvent.mkey).count
              ((maxKey? (s.map SeizureEvent.mkey)).getD 0)) ∧
       (trendOf s = "Stable"
          ↔ (s.map SeizureEvent.mkey).count
              ((maxKey? (s.map SeizureEvent.mkey)).getD 0)
            = (s.map SeizureEvent.mkey).count
              ((minKey? (s.map SeizureEvent.mkey)).getD 0)))) := by
  simp only [trendOf]
  by_cases hb : 1 < (uniqueFirst (s.map SeizureEvent.mkey)).length
  · simp only [if_pos hb]
    rcases lt_trichotomy
        ((s.map SeizureEvent.mkey).count ((maxKey? (s.map SeizureEvent.mkey)).getD 0))
        ((s.map SeizureEvent.mkey).count ((minKey? (s.map SeizureEvent.mkey)).getD 0))
      with h | h | h
    · simp only [if_pos h]
      refine ⟨by simp, ?_, fun _ => ⟨?_, ?_, ?_⟩⟩
      · simp
        omega
      · simpa using h
      · simp
        omega
      · simp
        omega
    · have hnl : ¬ ((s.map SeizureEvent.mkey).count ((maxKey? (s.map SeizureEvent.mkey)).getD 0)
          < (s.map SeizureEvent.mkey).count ((minKey? (s.map SeizureEvent.mkey)).getD 0)) := by
        omega
      have hng : ¬ ((s.map SeizureEvent.mkey).count ((minKey? (s.map SeizureEvent.mkey)).getD 0)
          < (s.map SeizureEvent.mkey).count ((maxKey? (s.map SeizureEvent.mkey)).getD 0)) := by
        omega
      simp only [if_neg hnl, if_neg hng]
      refine ⟨by simp, ?_, fun _ => ⟨?_, ?_, ?_⟩⟩
      · simp
        omega
      · simp
        omega
      · simp
        omega
      · simpa using h
    · have hnl : ¬ ((s.map SeizureEvent.mkey).count ((maxKey? (s.map SeizureEvent.mkey)).getD 0)
          < (s.map SeizureEvent.mkey).count ((minKey? (s.map SeizureEvent.mkey)).getD 0)) := by
        omega
      simp only [if_neg hnl, if_pos h]
      refine ⟨by simp, ?_, fun _ => ⟨?_, ?_, ?_⟩⟩
      · simp
        omega
      · simp
        omega
      · simpa using h
      · simp
        omega
  · simp only [if_neg hb]
    refine ⟨by simp, by simp; omega, fun hge => absurd hge (by omega)⟩

/-- **C3** (confirmed).  Whenever the analysis succeeds, `trend` is one
of the four strings; it is "Insufficient data for trend analysis" iff
fewer than two distinct year-month buckets are populated; otherwise it
compares the event count of the earliest bucket (`first`) with that of
the latest (`last`): `last < first` → "Improving", `first < last` →
"Worsening", equal → "Stable". -/
theorem trend_classification (events : List SeizureEvent)
    (hne : events ≠ []) (hcol : hasDurationColumn events = true)
    (hstr : hasStringDuration events = false) :
    ∃ r, analyzeSeizureHistory events = SeizureOutcome.ok r ∧
      (r.trend = "Improving" ∨ r.trend = "Worsening" ∨ r.trend = "Stable"
        ∨ r.trend = "Insufficient data for trend analysis") ∧
      (r.trend = "Insufficient data for trend analysis"
        ↔ (uniqueFirst (events.map SeizureEvent.mkey)).length < 2) ∧
      (2 ≤ (uniqueFirst (events.map SeizureEvent.mkey)).length →
        ((r.trend = "Improving"
            ↔ (events.map SeizureEvent.mkey).count
                ((maxKey? (events.map SeizureEvent.mkey)).getD 0)
              < (events.map SeizureEvent.mkey).count
                ((minKey? (events.map SeizureEvent.mkey)).getD 0)) ∧
         (r.trend = "Worsening"
            ↔ (events.map SeizureEvent.mkey).count
                ((minKey? (events.map SeizureEvent.mkey)).getD 0)
              < (events.map SeizureEvent.mkey).count
                ((maxKey? (events.map SeizureEvent.mkey)).getD 0)) ∧
         (r.trend = "Stable"
            ↔ (events.map SeizureEvent.mkey).count
                ((maxKey? (events.map SeizureEvent.mkey)).getD 0)
              = (events.map SeizureEvent.mkey).count
                ((minKey? (events.map SeizureEvent.mkey)).getD 0)))) := by
  obtain ⟨hmem, hiff, himp⟩ := trendOf_cases events
  exact ⟨_, analyzeSeizureHistory_eq_ok events hne hcol hstr, hmem, hiff, himp⟩

/-- Witness for C3 at `[sev1, sev2]` (two buckets, equal counts). -/
theorem trend_classification_witness :
    ([sev1, sev2] ≠ ([] : List SeizureEvent)) ∧
    hasDurationColumn [sev1, sev2] = true ∧
    hasStringDuration [sev1, sev2] = false ∧
    (∃ r, analyzeSeizureHistory [sev1, sev2] = SeizureOutcome.ok r ∧
      (r.trend = "Improving" ∨ r.trend = "Worsening" ∨ r.trend = "Stable"
        ∨ r.trend = "Insufficient data for trend analysis") ∧
      (r.trend = "Insufficient data for trend analysis"
        ↔ (uniqueFirst (([sev1, sev2] : List SeizureEvent).map SeizureEvent.mkey)).length < 2) ∧
      (2 ≤ (uniqueFirst (([sev1, sev2] : List SeizureEvent).map SeizureEvent.mkey)).length →
        ((r.trend = "Improving"
            ↔ (([sev1, sev2] : List SeizureEvent).map SeizureEvent.mkey).count
                ((maxKey? (([sev1, sev2] : List SeizureEvent).map SeizureEvent.mkey)).getD 0)
              < (([sev1, sev2] : List SeizureEvent).map SeizureEvent.mkey).count
                ((minKey? (([sev1, sev2] : List SeizureEvent).map SeizureEvent.mkey)).getD 0)) ∧
         (r.trend = "Worsening"
            ↔ (([sev1, sev2] : List SeizureEvent).map SeizureEvent.mkey).count
                ((minKey? (([sev1, sev2] : List SeizureEvent).map SeizureEvent.mkey)).getD 0)
              < (([sev1, sev2] : List SeizureEvent).map SeizureEvent.mkey).count
                ((maxKey? (([sev1, sev2] : List SeizureEvent).map SeizureEvent.mkey)).getD 0)) ∧
         (r.trend = "Stable"
            ↔ (([sev1, sev2] : List SeizureEvent).map SeizureEvent.mkey).count
                ((maxKey? (([sev1, sev2] : List SeizureEvent).map SeizureEvent.mkey)).getD 0)
              = (([sev1, sev2] : List SeizureEvent).map SeizureEvent.mkey).count
                ((minKey? (([sev1, sev2] : List SeizureEvent).map SeizureEvent.mkey)).getD 0))))) :=
  ⟨by decide, by decide, by decide,
    trend_classification [sev1, sev2] (by decide) (by decide) (by decide)⟩

/-- **C6** (confirmed).  For every trigger observed in some event and
every month index `m < 12`, the heatmap cell `(trigger, m)` counts, one
per occurrence, the trigger's occurrences over the events whose date
falls in calendar month `m + 1`, across all years. -/
theorem heatmap_month_trigger_counts (events : List SeizureEvent) (t : String)
    (m : ℕ) (hmonths : ∀ e ∈ events, 1 ≤ e.month)
    (_ht : t ∈ allTriggers events) (_hm : m < 12) :
    monthly_trigger_counts events t m
      = ((events.filter fun e => e.month == m + 1).map
          fun e => e.triggers.count t).sum := by
  rw [monthly_trigger_counts_eval]
  have hfil : (events.filter fun e => e.month - 1 == m)
      = events.filter fun e => e.month == m + 1 := by
    apply List.filter_congr
    intro e he
    have h1 := hmonths e he
    rw [Bool.eq_iff_iff]
    simp only [beq_iff_eq]
    omega
  rw [hfil]

/-- Witness for C6 at `[sev1, sev2]`, trigger "Stress", month index 0. -/
theorem heatmap_month_trigger_counts_witness :
    (∀ e ∈ ([sev1, sev2] : List SeizureEvent), 1 ≤ e.month) ∧
    "Stress" ∈ allTriggers [sev1, sev2] ∧ 0 < 12 ∧
    monthly_trigger_counts [sev1, sev2] "Stress" 0
      = ((([sev1, sev2] : List SeizureEvent).filter fun e => e.month == 0 + 1).map
          fun e => e.triggers.count "Stress").sum :=
  ⟨by decide, by decide, by decide,
    heatmap_month_trigger_counts [sev1, sev2] "Stress" 0 (by decide) (by decide)
      (by decide)⟩

/-- **C10** (confirmed).  On every non-empty test list the result is
internally consistent: the per-type counts sum to `total_tests`, each
type's `flagged_count` is at most its `count`, and the keys of
`test_summaries` are exactly the distinct test names of `test_types`. -/
theorem diagnostic_summaries_consistent (tests : List DiagTest)
    (hne : tests ≠ []) :
    ∃ r, processTestsList tests = TestsOutcome.ok r ∧
      (r.test_summaries.map fun p => p.2.count).sum = r.total_tests ∧
      (∀ p ∈ r.test_summaries, p.2.flagged_count ≤ p.2.count) ∧
      r.test_summaries.map Prod.fst = r.test_types ∧
      r.test_types.Nodup ∧
      (∀ t, t ∈ r.test_types ↔ t ∈ tests.map DiagTest.test) := by
  have hcov : ∀ x ∈ sortByKey DiagTest.key tests,
      DiagTest.test x ∈ uniqueFirst ((sortByKey DiagTest.key tests).map DiagTest.test) := by
    intro x hx
    exact (mem_uniqueFirst _ _).mpr (List.mem_map_of_mem DiagTest.test hx)
  refine ⟨_, processTestsList_eq_ok tests hne, ?_, ?_, ?_, ?_, ?_⟩
  · simp only [List.map_map, Function.comp_def]
    exact (sum_filter_lengths DiagTest.test (sortByKey DiagTest.key tests)
        (uniqueFirst ((sortByKey DiagTest.key tests).map DiagTest.test))
        (uniqueFirst_nodup _) hcov).trans
      (sortByKey_perm DiagTest.key tests).length_eq
  · rintro ⟨t0, summ⟩ hp
    simp only [List.mem_map] at hp
    obtain ⟨t, _, heq⟩ := hp
    rw [Prod.mk.injEq] at heq
    obtain ⟨h1, h2⟩ := heq
    subst h2
    exact List.countP_le_length _
  · simp [List.map_map, Function.comp_def]
  · exact uniqueFirst_nodup _
  · intro t
    rw [mem_uniqueFirst]
    exact ((sortByKey_perm DiagTest.key tests).map DiagTest.test).mem_iff

/-- Witness for C10 at `[dtAed1, dtEeg, dtAed2]`. -/
theorem diagnostic_summaries_consistent_witness :
    ([dtAed1, dtEeg, dtAed2] ≠ ([] : List DiagTest)) ∧
    (∃ r, processTestsList [dtAed1, dtEeg, dtAed2] = TestsOutcome.ok r ∧
      (r.test_summaries.map fun p => p.2.count).sum = r.total_tests ∧
      (∀ p ∈ r.test_summaries, p.2.flagged_count ≤ p.2.count) ∧
      r.test_summaries.map Prod.fst = r.test_types ∧
      r.test_types.Nodup ∧
      (∀ t, t ∈ r.test_types
        ↔ t ∈ ([dtAed1, dtEeg, dtAed2] : List DiagTest).map DiagTest.test)) :=
  ⟨by decide, diagnostic_summaries_consistent [dtAed1, dtEeg, dtAed2] (by decide)⟩

/-- Full output equality of the seizure analysis under permutation of
the input: every returned field (counts, dictionaries as mappings,
average, trend, extremal dates) and every error/message outcome is
order-independent. -/
theorem analyzeSeizureHistory_perm_congr {l₁ l₂ : List SeizureEvent}
    (h : l₁.Perm l₂) :
    analyzeSeizureHistory l₁ = analyzeSeizureHistory l₂ := by
  by_cases h1 : l₁ = []
  · subst h1
    rw [h.symm.eq_nil]
  · have h2 : l₂ ≠ [] := fun he => h1 (by rw [he] at h; exact h.eq_nil)
    cases hcol : hasDurationColumn l₁ with
    | false =>
      rw [analyzeSeizureHistory_eq_error_nocol l₁ h1 hcol,
        analyzeSeizureHistory_eq_error_nocol l₂ h2
          ((hasDurationColumn_congr h.symm).trans hcol)]
    | true =>
      cases hstr : hasStringDuration l₁ with
      | true =>
        rw [analyzeSeizureHistory_eq_error_str l₁ h1 hstr,
          analyzeSeizureHistory_eq_error_str l₂ h2
            ((hasStringDuration_congr h.symm).trans hstr)]
      | false =>
        rw [analyzeSeizureHistory_eq_ok l₁ h1 hcol hstr,
          analyzeSeizureHistory_eq_ok l₂ h2
            ((hasDurationColumn_congr h.symm).trans hcol)
            ((hasStringDuration_congr h.symm).trans hstr)]
        have hnum : (numericDurations l₁).Perm (numericDurations l₂) :=
          h.filterMap _
        simp only [SeizureOutcome.ok.injEq, SeizureResult.mk.injEq]
        refine ⟨h.length_eq, Multiset.coe_eq_coe.mpr (h.map _), ?_, ?_, ?_, ?_, ?_⟩
        · rw [hnum.sum_eq, hnum.length_eq]
        · exact Multiset.coe_eq_coe.mpr ((h.map _).flatten)
        · exact trendOf_congr h
        · rw [minKey?_congr (h.map _)]
        · rw [maxKey?_congr (h.map _)]

/-- The `test_types` list of a diagnostic-test outcome (empty for the
message/error dictionaries). -/
def testTypesOf : TestsOutcome → List String
  | TestsOutcome.ok r => r.test_types
  | _ => []

/-- **C5** (corrected).  All output fields of
`analyze_seizure_frequency` are invariant under permutation of the
input.  For `process_diagnostic_tests`, `total_tests`,
`flagged_percentage`, `latest_test_date` and the summaries *as a
mapping* are invariant, and `test_types` is invariant as a set — but
its list order is the first-seen order of the date-sorted input, which
can change under permutation when distinct tests share a date. -/
theorem order_invariance_corrected (s₁ s₂ : List SeizureEvent)
    (t₁ t₂ : List DiagTest) (hs : s₁.Perm s₂) (ht : t₁.Perm t₂) :
    analyzeSeizureHistory s₁ = analyzeSeizureHistory s₂ ∧
    ∀ r₁, processTestsList t₁ = TestsOutcome.ok r₁ →
      ∃ r₂, processTestsList t₂ = TestsOutcome.ok r₂ ∧
        r₁.total_tests = r₂.total_tests ∧
        r₁.flagged_percentage = r₂.flagged_percentage ∧
        r₁.latest_test_date = r₂.latest_test_date ∧
        r₁.test_types.Perm r₂.test_types ∧
        ∀ t, r₁.test_summaries.lookup t = r₂.test_summaries.lookup t := by
  refine ⟨analyzeSeizureHistory_perm_congr hs, ?_⟩
  intro r₁ hr₁
  by_cases h1 : t₁ = []
  · subst h1
    simp [processTestsList, processTestsCore] at hr₁
  · have h2 : t₂ ≠ [] := fun he => h1 (by rw [he] at ht; exact ht.eq_nil)
    rw [processTestsList_eq_ok t₁ h1] at hr₁
    injection hr₁ with hr₁
    subst hr₁
    have hsort : (sortByKey DiagTest.key t₁).Perm (sortByKey DiagTest.key t₂) :=
      ((sortByKey_perm DiagTest.key t₁).trans ht).trans
        (sortByKey_perm DiagTest.key t₂).symm
    have htypes : (uniqueFirst ((sortByKey DiagTest.key t₁).map DiagTest.test)).Perm
        (uniqueFirst ((sortByKey DiagTest.key t₂).map DiagTest.test)) :=
      uniqueFirst_perm_congr (hsort.map _)
    refine ⟨_, processTestsList_eq_ok t₂ h2, ht.length_eq, ?_, ?_, htypes, ?_⟩
    · show round1 _ = round1 _
      rw [ht.countP_eq, ht.length_eq]
    · show (maxKey? (t₁.map DiagTest.key)).getD 0 = (maxKey? (t₂.map DiagTest.key)).getD 0
      rw [maxKey?_congr (ht.map _)]
    · intro t0
      show List.lookup t0 _ = List.lookup t0 _
      rw [lookup_map_pair, lookup_map_pair]
      have hmemiff : (t0 ∈ uniqueFirst ((sortByKey DiagTest.key t₁).map DiagTest.test))
          ↔ t0 ∈ uniqueFirst ((sortByKey DiagTest.key t₂).map DiagTest.test) :=
        htypes.mem_iff
      by_cases hmem : t0 ∈ uniqueFirst ((sortByKey DiagTest.key t₁).map DiagTest.test)
      · rw [if_pos hmem, if_pos (hmemiff.mp hmem)]
        have hg : ((sortByKey DiagTest.key t₁).filter fun x => x.test == t0).Perm
            ((sortByKey DiagTest.key t₂).filter fun x => x.test == t0) :=
          hsort.filter _
        simp only [Option.some.injEq, TestSummary.mk.injEq]
        exact ⟨hg.length_eq, by rw [minKey?_congr (hg.map _)],
          by rw [maxKey?_congr (hg.map _)], hg.countP_eq _⟩
      · rw [if_neg hmem, if_neg (fun hm => hmem (hmemiff.mpr hm))]

/-- Witness for C5: swapped two-element histories and test lists. -/
theorem order_invariance_corrected_witness :
    (([sev2, sev1] : List SeizureEvent).Perm [sev1, sev2]) ∧
    (([dtAed2, dtAed1] : List DiagTest).Perm [dtAed1, dtAed2]) ∧
    (analyzeSeizureHistory [sev2, sev1] = analyzeSeizureHistory [sev1, sev2] ∧
    ∀ r₁, processTestsList [dtAed2, dtAed1] = TestsOutcome.ok r₁ →
      ∃ r₂, processTestsList [dtAed1, dtAed2] = TestsOutcome.ok r₂ ∧
        r₁.total_tests = r₂.total_tests ∧
        r₁.flagged_percentage = r₂.flagged_percentage ∧
        r₁.latest_test_date = r₂.latest_test_date ∧
        r₁.test_types.Perm r₂.test_types ∧
        ∀ t, r₁.test_summaries.lookup t = r₂.test_summaries.lookup t) :=
  ⟨List.Perm.swap sev1 sev2 [], List.Perm.swap dtAed1 dtAed2 [],
    order_invariance_corrected [sev2, sev1] [sev1, sev2] [dtAed2, dtAed1]
      [dtAed1, dtAed2] (List.Perm.swap sev1 sev2 []) (List.Perm.swap dtAed1 dtAed2 [])⟩

/-- Counterexample to C5 as stated: two tests of distinct names share
the date 2023-01-05; permuting the input permutes the `test_types`
list, so this output field is not invariant. -/
theorem order_invariance_counterexample :
    (([dtEeg, dtAed1] : List DiagTest).Perm [dtAed1, dtEeg]) ∧
    testTypesOf (processTestsList [dtAed1, dtEeg]) = ["AED Level", "EEG"] ∧
    testTypesOf (processTestsList [dtEeg, dtAed1]) = ["EEG", "AED Level"] ∧
    testTypesOf (processTestsList [dtAed1, dtEeg])
      ≠ testTypesOf (processTestsList [dtEeg, dtAed1]) :=
  ⟨List.Perm.swap dtAed1 dtEeg [], by decide, by decide, by decide⟩
